import Mathlib

/-!
Shallow embedding of the clientFS FUSE adapter, translated from
src/clientFS/src/filesystem.rs: the inode registry (the bidirectional
inode/path maps plus cached attributes), the attribute projection and the
dispatcher callbacks (readdir, read, write, mkdir, unlink, rmdir, rename).

Machine integers are modelled as Nat/Int with explicit reduction modulo
2 ^ 64 where Rust release-mode wrapping matters (the `as usize` casts and
wrapping additions in read/write).  Remote HTTP calls are modelled as oracle
parameters: an Option carries the fetched value (none = the call failed) and
a Bool carries success of a mutating call.  Times are abstracted to natural
timestamps since no verified property depends on time arithmetic; the
current time is passed in as a parameter where the source calls
SystemTime::now().
-/

/-- File kind, as in the fuser FileType values used by the source
(Directory / RegularFile). -/
inductive FileKind where
  | directory
  | regularFile
deriving DecidableEq

/-- A directory-listing entry as delivered by the remote list endpoint
(struct FileEntry in api_client.rs).  mtime/ctime are abstract timestamps. -/
structure FileEntry where
  name : String
  is_dir : Bool
  size : Nat
  mtime : Nat
  ctime : Nat
  mode : Nat
deriving DecidableEq

/-- Kernel-shaped attribute record (fuser FileAttr as populated by the
source; atime/mtime/ctime/crtime abstracted to Nat timestamps). -/
structure FileAttr where
  ino : Nat
  size : Nat
  blocks : Nat
  atime : Nat
  mtime : Nat
  ctime : Nat
  crtime : Nat
  kind : FileKind
  perm : Nat
  nlink : Nat
  uid : Nat
  gid : Nat
  rdev : Nat
  flags : Nat
  blksize : Nat
deriving DecidableEq

/-- Registry record (struct INode in filesystem.rs). -/
structure INode where
  ino : Nat
  path : String
  attr : FileAttr
deriving DecidableEq

/-- Registry state of RemoteFS: the two HashMaps and the inode counter.
HashMaps are modelled as association lists with unique keys. -/
structure FS where
  inodes : List (Nat × INode)
  path_to_ino : List (String × Nat)
  next_ino : Nat
deriving DecidableEq

/-- Association-list lookup, modelling HashMap::get. -/
def alookup {α β : Type} [DecidableEq α] : List (α × β) → α → Option β
  | [], _ => none
  | (k, v) :: rest, k' => if k' = k then some v else alookup rest k'

/-- Association-list removal of a key, modelling HashMap::remove. -/
def aremove {α β : Type} [DecidableEq α] : List (α × β) → α → List (α × β)
  | [], _ => []
  | (k, v) :: rest, k0 => if k = k0 then aremove rest k0 else (k, v) :: aremove rest k0

/-- Association-list insert-or-replace, modelling HashMap::insert. -/
def ainsert {α β : Type} [DecidableEq α] (l : List (α × β)) (k : α) (v : β) :
    List (α × β) :=
  (k, v) :: aremove l k

/-- 2 ^ 64, the usize modulus. -/
def usizeMod : Nat := 2 ^ 64

/-- Wrapping usize arithmetic (Rust release mode). -/
def usize (n : Nat) : Nat := n % usizeMod

/-- Rust `offset as usize` for an i64 offset: reinterpretation of the two's
complement bits, i.e. reduction of the integer modulo 2 ^ 64. -/
def usizeOfI64 (o : Int) : Nat := (o % (2 ^ 64 : Int)).toNat

/-- isize::MAX, the largest length a Rust Vec can take; Vec::resize beyond
it aborts with a capacity-overflow panic. -/
def isizeMax : Nat := 2 ^ 63 - 1

/-- errno ENOENT. -/
def errnoEnoent : Nat := 2

/-- errno EIO. -/
def errnoEio : Nat := 5

/-- Attribute projection performed by get_or_create_inode (filesystem.rs
lines 89-109): blocks = (size + 511) / 512, perm = mode masked to 9 bits,
nlink 2 for directories and 1 for files, fixed uid 501 / gid 20,
blksize 512, atime = mtime and crtime = ctime. -/
def attrOfEntry (ino : Nat) (e : FileEntry) : FileAttr :=
  { ino := ino
    size := e.size
    blocks := (e.size + 511) / 512
    atime := e.mtime
    mtime := e.mtime
    ctime := e.ctime
    crtime := e.ctime
    kind := if e.is_dir then FileKind.directory else FileKind.regularFile
    perm := e.mode &&& 511
    nlink := if e.is_dir then 2 else 1
    uid := 501
    gid := 20
    rdev := 0
    flags := 0
    blksize := 512 }

/-- The root attribute record constructed in RemoteFS::new: kind directory,
size 0, blocks 0, perm 0o755, nlink 2, uid 501, gid 20, blksize 512, all
times set to the construction time. -/
def rootAttr (now : Nat) : FileAttr :=
  { ino := 1
    size := 0
    blocks := 0
    atime := now
    mtime := now
    ctime := now
    crtime := now
    kind := FileKind.directory
    perm := 0o755
    nlink := 2
    uid := 501
    gid := 20
    rdev := 0
    flags := 0
    blksize := 512 }

/-- Initial registry built by RemoteFS::new: the root inode 1 at path "/",
next_ino starting at 2. -/
def initFS (now : Nat) : FS :=
  { inodes := [(1, ⟨1, "/", rootAttr now⟩)]
    path_to_ino := [("/", 1)]
    next_ino := 2 }

/-- get_or_create_inode (filesystem.rs lines 77-121): if the path is
already in path_to_ino, return its inode unchanged (the cached attributes
are NOT touched); otherwise allocate next_ino, build the attribute record
from the entry, insert both directions and bump the counter. -/
def getOrCreateInode (fs : FS) (path : String) (e : FileEntry) : FS × Nat :=
  match alookup fs.path_to_ino path with
  | some ino => (fs, ino)
  | none =>
    let ino := fs.next_ino
    ({ inodes := ainsert fs.inodes ino ⟨ino, path, attrOfEntry ino e⟩
       path_to_ino := ainsert fs.path_to_ino path ino
       next_ino := ino + 1 }, ino)

/-- get_inode: snapshot lookup in the ino direction. -/
def lookupIno (fs : FS) (ino : Nat) : Option INode :=
  alookup fs.inodes ino

/-- Path join used throughout the source: "/" ++ name under the root,
parent ++ "/" ++ name otherwise. -/
def joinPath (p n : String) : String :=
  if p = "/" then "/" ++ n else p ++ "/" ++ n

/-- path_from_parent_and_name: none when the parent inode is unknown.
Names are modelled as Strings, so the non-UTF-8 failure arm of the source
(name.to_str() returning None) is out of the model's input space. -/
def pathFromParent (fs : FS) (parent : Nat) (name : String) : Option String :=
  (lookupIno fs parent).map (fun r => joinPath r.path name)

/-- Reply of a data-carrying read callback. -/
inductive ReadReply where
  | dataR (bytes : List Nat)
  | err (code : Nat)
  | crash
deriving DecidableEq

/-- read (filesystem.rs lines 289-326): unknown inode replies ENOENT, a
failed remote fetch replies EIO; otherwise start = offset as usize,
endIdx = min (start + size) len (wrapping), empty data when start ≥ len and
the slice data[start..endIdx] otherwise.  crash marks the slice-index panic
(reachable only when the wrapping addition overflowed). -/
def readM (fs : FS) (ino : Nat) (offset : Int) (size : Nat)
    (fetch : Option (List Nat)) : FS × ReadReply :=
  match lookupIno fs ino with
  | none => (fs, ReadReply.err errnoEnoent)
  | some _ =>
    match fetch with
    | none => (fs, ReadReply.err errnoEio)
    | some data =>
      let start := usizeOfI64 offset
      let endIdx := min (usize (start + size)) data.length
      if data.length ≤ start then (fs, ReadReply.dataR [])
      else if endIdx < start then (fs, ReadReply.crash)
      else (fs, ReadReply.dataR ((data.drop start).take (endIdx - start)))

/-- Reply of the write callback. -/
inductive WriteReply where
  | written (n : Nat)
  | err (code : Nat)
  | crash
deriving DecidableEq

/-- Full outcome of the write callback: resulting registry, reply, and the
whole-object buffer sent to the remote (none when the remote write was
never reached). -/
structure WriteOut where
  fs : FS
  reply : WriteReply
  sent : Option (List Nat)
deriving DecidableEq

/-- write (filesystem.rs lines 328-381).  Steps of the source: fetch the
current bytes (failure = start from empty); end_offset = offset as usize +
data.len() (wrapping in release mode); resize with zero fill when
end_offset exceeds the current length (crash: capacity overflow past
isize::MAX); overwrite [start, end_offset) with data (crash when the slice
bounds are inverted, which is how a negative offset dies); send the buffer;
on success set size = buffer length and mtime = now and reply written
(data.len() as u32); on remote failure reply EIO without touching the
registry. -/
def writeM (fs : FS) (ino : Nat) (offset : Int) (data : List Nat)
    (fetch : Option (List Nat)) (remoteOk : Bool) (now : Nat) : WriteOut :=
  match lookupIno fs ino with
  | none => ⟨fs, WriteReply.err errnoEnoent, none⟩
  | some _ =>
    let fileData := fetch.getD []
    let start := usizeOfI64 offset
    let endOff := usize (start + data.length)
    if fileData.length < endOff ∧ isizeMax < endOff then ⟨fs, WriteReply.crash, none⟩
    else
      let fd2 := if fileData.length < endOff then
          fileData ++ List.replicate (endOff - fileData.length) 0
        else fileData
      if endOff < start ∨ fd2.length < endOff then ⟨fs, WriteReply.crash, none⟩
      else
        let buf := fd2.take start ++ data ++ fd2.drop endOff
        if remoteOk then
          let inodes' := match alookup fs.inodes ino with
            | some r =>
              ainsert fs.inodes ino ⟨r.ino, r.path,
                { r.attr with size := buf.length, mtime := now }⟩
            | none => fs.inodes
          ⟨{ fs with inodes := inodes' }, WriteReply.written (data.length % 2 ^ 32),
            some buf⟩
        else ⟨fs, WriteReply.err errnoEio, some buf⟩

/-- Reply of an entry-carrying callback (lookup/mkdir). -/
inductive EntryReply where
  | entry (attr : FileAttr)
  | err (code : Nat)
deriving DecidableEq

/-- mkdir (filesystem.rs lines 383-425): unknown parent replies ENOENT;
on remote success intern a fresh directory entry (size 0, mode 0o755,
times = now) and reply with its attributes; on remote failure reply EIO
without touching the registry. -/
def mkdirM (fs : FS) (parent : Nat) (name : String) (remoteOk : Bool)
    (now : Nat) : FS × EntryReply :=
  match pathFromParent fs parent name with
  | none => (fs, EntryReply.err errnoEnoent)
  | some path =>
    if remoteOk then
      let e : FileEntry := ⟨name, true, 0, now, now, 0o755⟩
      let res := getOrCreateInode fs path e
      match lookupIno res.1 res.2 with
      | some inode => (res.1, EntryReply.entry inode.attr)
      | none => (res.1, EntryReply.err errnoEio)
    else (fs, EntryReply.err errnoEio)

/-- Reply of an empty callback (unlink/rmdir/rename). -/
inductive EmptyReply where
  | okE
  | err (code : Nat)
deriving DecidableEq

/-- unlink (filesystem.rs lines 427-455): unknown parent replies ENOENT;
on remote success remove the path from path_to_ino and, when it was mapped,
remove its inode record; on remote failure reply EIO untouched. -/
def unlinkM (fs : FS) (parent : Nat) (name : String) (remoteOk : Bool) :
    FS × EmptyReply :=
  match pathFromParent fs parent name with
  | none => (fs, EmptyReply.err errnoEnoent)
  | some path =>
    if remoteOk then
      match alookup fs.path_to_ino path with
      | some ino =>
        ({ fs with path_to_ino := aremove fs.path_to_ino path
                   inodes := aremove fs.inodes ino }, EmptyReply.okE)
      | none =>
        ({ fs with path_to_ino := aremove fs.path_to_ino path }, EmptyReply.okE)
    else (fs, EmptyReply.err errnoEio)

/-- rmdir (filesystem.rs lines 457-485): the source body is identical to
unlink's (the remote delete endpoint is uniform). -/
def rmdirM (fs : FS) (parent : Nat) (name : String) (remoteOk : Bool) :
    FS × EmptyReply :=
  unlinkM fs parent name remoteOk

/-- rename (filesystem.rs lines 487-538): compose both paths (ENOENT when a
parent is unknown); on remote success remove from_path from path_to_ino
and, when it was mapped to ino, insert to_path -> ino (silently replacing
any previous mapping of to_path) and rewrite the path stored in ino's
record; on remote failure reply EIO untouched. -/
def renameM (fs : FS) (parent : Nat) (name : String) (newparent : Nat)
    (newname : String) (remoteOk : Bool) : FS × EmptyReply :=
  match pathFromParent fs parent name with
  | none => (fs, EmptyReply.err errnoEnoent)
  | some fromPath =>
    match pathFromParent fs newparent newname with
    | none => (fs, EmptyReply.err errnoEnoent)
    | some toPath =>
      if remoteOk then
        match alookup fs.path_to_ino fromPath with
        | some ino =>
          let p2 := ainsert (aremove fs.path_to_ino fromPath) toPath ino
          let ind := match alookup fs.inodes ino with
            | some r => ainsert fs.inodes ino ⟨r.ino, toPath, r.attr⟩
            | none => fs.inodes
          ({ fs with path_to_ino := p2, inodes := ind }, EmptyReply.okE)
        | none =>
          ({ fs with path_to_ino := aremove fs.path_to_ino fromPath },
            EmptyReply.okE)
      else (fs, EmptyReply.err errnoEio)

/-- One emitted directory entry: reply.add(ino, next_offset, kind, name). -/
structure DirEnt where
  ino : Nat
  off : Int
  kind : FileKind
  name : String
deriving DecidableEq

/-- Reply of the readdir callback. -/
inductive DirReply where
  | ok (emitted : List DirEnt)
  | err (code : Nat)
deriving DecidableEq

/-- The remote-entry loop of readdir (filesystem.rs lines 260-278): each
entry is first interned (get_or_create_inode runs even for the entry whose
reply.add fails), then added at cursor i + 1 while the reply buffer has
room; the first full buffer stops the loop.  Buffer capacity is abstracted
to a maximum number cap of entries the reply buffer accepts. -/
def readdirLoop (dirPath : String) (cap : Nat) :
    FS → List FileEntry → Int → List DirEnt → FS × List DirEnt
  | fs, [], _, acc => (fs, acc)
  | fs, e :: rest, i, acc =>
    let res := getOrCreateInode fs (joinPath dirPath e.name) e
    if acc.length < cap then
      readdirLoop dirPath cap res.1 rest (i + 1)
        (acc ++ [⟨res.2, i + 1,
          if e.is_dir then FileKind.directory else FileKind.regularFile,
          e.name⟩])
    else (res.1, acc)

/-- readdir (filesystem.rs lines 222-287): unknown inode replies ENOENT, a
failed remote listing replies EIO.  Otherwise, with cursor i starting at
the requested offset: when i = 0 add "." at cursor 1 (an immediately full
buffer replies ok with what was emitted), when i = 1 add ".." at cursor 2,
then loop over the listing skipping (i - 2).max(0) entries. -/
def readdirM (fs : FS) (ino : Nat) (offset : Int)
    (listing : Option (List FileEntry)) (cap : Nat) : FS × DirReply :=
  match lookupIno fs ino with
  | none => (fs, DirReply.err errnoEnoent)
  | some inode =>
    match listing with
    | none => (fs, DirReply.err errnoEio)
    | some entries =>
      if offset = 0 ∧ cap = 0 then (fs, DirReply.ok [])
      else
        let acc1 : List DirEnt :=
          if offset = 0 then [⟨ino, 1, FileKind.directory, "."⟩] else []
        let i1 : Int := if offset = 0 then 1 else offset
        if i1 = 1 ∧ cap ≤ acc1.length then (fs, DirReply.ok acc1)
        else
          let acc2 := if i1 = 1 then acc1 ++ [⟨ino, 2, FileKind.directory, ".."⟩]
            else acc1
          let i2 : Int := if i1 = 1 then 2 else i1
          let skipN := (max (i2 - 2) 0).toNat
          let res := readdirLoop inode.path cap fs (entries.drop skipN) i2 acc2
          (res.1, DirReply.ok res.2)

/-- The entries emitted by one readdir call: the payload of an ok reply,
and the empty sequence when the call replied with an error. -/
def readdirEmitted (fs : FS) (ino : Nat) (offset : Int)
    (listing : Option (List FileEntry)) (cap : Nat) : List DirEnt :=
  match (readdirM fs ino offset listing cap).2 with
  | DirReply.ok em => em
  | DirReply.err _ => []

/-- Registry-mutating operations for reachability traces.  Remote outcomes
and times travel inside the operation. -/
inductive Op where
  | intern (path : String) (e : FileEntry)
  | ren (parent : Nat) (name : String) (newparent : Nat) (newname : String)
      (remoteOk : Bool)
  | unl (parent : Nat) (name : String) (remoteOk : Bool)
  | rmd (parent : Nat) (name : String) (remoteOk : Bool)
  | wr (ino : Nat) (offset : Int) (data : List Nat) (fetch : Option (List Nat))
      (remoteOk : Bool) (now : Nat)
  | mkd (parent : Nat) (name : String) (remoteOk : Bool) (now : Nat)
  | rdd (ino : Nat) (offset : Int) (listing : Option (List FileEntry)) (cap : Nat)
deriving DecidableEq

/-- Whether an operation is a write callback. -/
def Op.isWr : Op → Bool
  | Op.wr _ _ _ _ _ _ => true
  | _ => false

/-- Effect of one operation on the registry. -/
def step (fs : FS) : Op → FS
  | Op.intern p e => (getOrCreateInode fs p e).1
  | Op.ren parent name np nn ok => (renameM fs parent name np nn ok).1
  | Op.unl parent name ok => (unlinkM fs parent name ok).1
  | Op.rmd parent name ok => (rmdirM fs parent name ok).1
  | Op.wr ino off data fetch ok now => (writeM fs ino off data fetch ok now).fs
  | Op.mkd parent name ok now => (mkdirM fs parent name ok now).1
  | Op.rdd ino off listing cap => (readdirM fs ino off listing cap).1

/-- Run a trace of operations. -/
def run (fs : FS) : List Op → FS
  | [] => fs
  | op :: ops => run (step fs op) ops

/-- Inode numbers issued by one operation: the interval of counter values it
consumed, in order. -/
def issuedBy (fs : FS) (op : Op) : List Nat :=
  List.range' fs.next_ino ((step fs op).next_ino - fs.next_ino)

/-- Inode numbers issued along a trace, in issuance order. -/
def issuedRun (fs : FS) : List Op → List Nat
  | [] => []
  | op :: ops => issuedBy fs op ++ issuedRun (step fs op) ops

/-- Spec invariant I1, the path-to-ino direction: every path mapping points
at a live record that stores that same path. -/
def PathDirInv (fs : FS) : Prop :=
  ∀ p i, alookup fs.path_to_ino p = some i →
    ∃ r, alookup fs.inodes i = some r ∧ r.path = p

/-- Spec property P1, the ino-to-record direction: every record's stored
path maps back to that inode. -/
def InoDirInv (fs : FS) : Prop :=
  ∀ i r, alookup fs.inodes i = some r → alookup fs.path_to_ino r.path = some i

/-- Counter bound (spec invariant I4): every live inode is below next_ino. -/
def InoBound (fs : FS) : Prop :=
  ∀ i r, alookup fs.inodes i = some r → i < fs.next_ino

/-- The inductive registry invariant the code actually maintains. -/
def GoodFS (fs : FS) : Prop := PathDirInv fs ∧ InoBound fs

/-- Blocks/size coupling from the spec data model: blocks = ceil(size/512)
and block_size = 512 in every cached record. -/
def CoupleInv (fs : FS) : Prop :=
  ∀ i r, alookup fs.inodes i = some r →
    r.attr.blocks = (r.attr.size + 511) / 512 ∧ r.attr.blksize = 512

/-- The write buffer as the spec words it: the previous contents extended
with zero bytes to length max(L, offset + len(data)), with data overwritten
at positions [offset, offset + len(data)).  Stated from the spec for
comparison with the buffer writeM sends. -/
def writeSpecBuffer (old : List Nat) (off : Nat) (data : List Nat) : List Nat :=
  let ext := old ++ List.replicate (max old.length (off + data.length) - old.length) 0
  ext.take off ++ data ++ ext.drop (off + data.length)

/-- Concrete listing entry "a" (plain file, size 0). -/
def entryA : FileEntry := ⟨"a", false, 0, 0, 0, 0o644⟩

/-- Concrete listing entry "b" (plain file, size 0). -/
def entryB : FileEntry := ⟨"b", false, 0, 0, 0, 0o644⟩

/-- Concrete listing entry "a" with size 100. -/
def entryBig : FileEntry := ⟨"a", false, 100, 0, 0, 0o644⟩

/-- Concrete listing entry "a" with size 7 and different times. -/
def entrySmall : FileEntry := ⟨"a", false, 7, 3, 3, 0o600⟩

/-- Concrete listing entry "x". -/
def entryX : FileEntry := ⟨"x", false, 3, 0, 0, 0o644⟩

/-- Concrete listing entry "y". -/
def entryY : FileEntry := ⟨"y", false, 4, 0, 0, 0o644⟩

theorem alookup_aremove {α β : Type} [DecidableEq α] (l : List (α × β)) (k k' : α) :
    alookup (aremove l k) k' = if k' = k then none else alookup l k' := by
  induction l with
  | nil => simp [aremove, alookup]
  | cons p rest ih =>
    obtain ⟨a, b⟩ := p
    by_cases hak : a = k
    · subst hak
      rw [show aremove ((a, b) :: rest) a = aremove rest a from by simp [aremove]]
      rw [ih]
      by_cases hk : k' = a <;> simp [alookup, hk]
    · rw [show aremove ((a, b) :: rest) k = (a, b) :: aremove rest k from by
        simp [aremove, hak]]
      by_cases ha : k' = a
      · subst ha
        simp [alookup, hak]
      · simp [alookup, ha, ih]

theorem alookup_ainsert {α β : Type} [DecidableEq α] (l : List (α × β)) (k : α)
    (v : β) (k' : α) :
    alookup (ainsert l k v) k' = if k' = k then some v else alookup l k' := by
  by_cases hk : k' = k <;> simp [ainsert, alookup, alookup_aremove, hk]

theorem usizeOfI64_nonneg (o : Int) (h0 : 0 ≤ o) (h1 : o < 2 ^ 64) :
    usizeOfI64 o = o.toNat := by
  unfold usizeOfI64
  rw [Int.emod_eq_of_lt h0 (by exact_mod_cast h1)]

theorem usize_small (n : Nat) (h : n < 2 ^ 64) : usize n = n := by
  unfold usize usizeMod
  exact Nat.mod_eq_of_lt h

/-- C10: every attribute record RemoteFS constructs — the root record built
in RemoteFS::new and every record built by get_or_create_inode — carries
the fixed constants uid = 501 and gid = 20, for every construction time,
entry and inode number. -/
theorem C10_fixed_uid_gid :
    (∀ now, (rootAttr now).uid = 501 ∧ (rootAttr now).gid = 20) ∧
    (∀ ino e, (attrOfEntry ino e).uid = 501 ∧ (attrOfEntry ino e).gid = 20) :=
  ⟨fun _ => ⟨rfl, rfl⟩, fun _ _ => ⟨rfl, rfl⟩⟩

/-- C2 counterexample: interning a known path does NOT overwrite the cached
attributes.  After interning "/a" with size 100, re-interning "/a" with a
size-7 snapshot returns the old inode, leaves the registry untouched, and
the cached size is still 100. -/
theorem C2_intern_no_refresh :
    (getOrCreateInode (getOrCreateInode (initFS 0) "/a" entryBig).1 "/a" entrySmall
        = ((getOrCreateInode (initFS 0) "/a" entryBig).1, 2)) ∧
    (lookupIno (getOrCreateInode (getOrCreateInode (initFS 0) "/a" entryBig).1
        "/a" entrySmall).1 2).map (fun r => r.attr.size) = some 100 ∧
    entrySmall.size = 7 := by
  refine ⟨by decide, by decide, rfl⟩

/-- C2 amended: if the path is known, intern returns the existing inode and
leaves the whole registry (in particular the cached attributes) unchanged;
if the path is unknown it allocates next_ino, inserts both directions with
the projected attributes and bumps the counter. -/
theorem C2_intern_semantics :
    (∀ fs path e ino, alookup fs.path_to_ino path = some ino →
      getOrCreateInode fs path e = (fs, ino)) ∧
    (∀ fs path e, alookup fs.path_to_ino path = none →
      (getOrCreateInode fs path e).2 = fs.next_ino ∧
      alookup (getOrCreateInode fs path e).1.path_to_ino path = some fs.next_ino ∧
      alookup (getOrCreateInode fs path e).1.inodes fs.next_ino =
        some ⟨fs.next_ino, path, attrOfEntry fs.next_ino e⟩ ∧
      (getOrCreateInode fs path e).1.next_ino = fs.next_ino + 1) := by
  constructor
  · intro fs path e ino h
    simp [getOrCreateInode, h]
  · intro fs path e h
    simp [getOrCreateInode, h, alookup_ainsert]

/-- C2 witness: the amended statement applied at a concrete known path and
at a concrete unknown path. -/
theorem C2_intern_semantics_witness :
    getOrCreateInode (initFS 0) "/" entryA = (initFS 0, 1) ∧
    (getOrCreateInode (initFS 0) "/a" entryA).2 = 2 := by
  constructor
  · exact C2_intern_semantics.1 (initFS 0) "/" entryA 1 (by decide)
  · exact (C2_intern_semantics.2 (initFS 0) "/a" entryA (by decide)).1

/-- C5: the write callback panics instead of replying when offset = -1 on a
known inode: offset as usize becomes 2^64 - 1, end_offset wraps to 0, and
the mutable slice file_data[start..end] has inverted bounds.  The model
yields the crash outcome with no reply and no registry change. -/
theorem C5_write_negative_offset_crash :
    writeM (initFS 0) 1 (-1) [42] none true 0 =
      ⟨initFS 0, WriteReply.crash, none⟩ := by decide

theorem getOrCreate_next_le (fs : FS) (p : String) (e : FileEntry) :
    fs.next_ino ≤ ((getOrCreateInode fs p e).1).next_ino := by
  unfold getOrCreateInode
  split
  · exact Nat.le_refl _
  · exact Nat.le_succ _

theorem unlink_next (fs : FS) (parent : Nat) (name : String) (ok : Bool) :
    ((unlinkM fs parent name ok).1).next_ino = fs.next_ino := by
  unfold unlinkM
  split
  · rfl
  · split
    · split <;> rfl
    · rfl

theorem rename_next (fs : FS) (parent : Nat) (name : String) (np : Nat)
    (nn : String) (ok : Bool) :
    ((renameM fs parent name np nn ok).1).next_ino = fs.next_ino := by
  unfold renameM
  split
  · rfl
  · split
    · rfl
    · split
      · split <;> rfl
      · rfl

theorem write_next (fs : FS) (ino : Nat) (offset : Int) (data : List Nat)
    (fetch : Option (List Nat)) (ok : Bool) (now : Nat) :
    ((writeM fs ino offset data fetch ok now).fs).next_ino = fs.next_ino := by
  unfold writeM
  split
  · rfl
  · dsimp only
    repeat' first | rfl | split

theorem mkdir_next_le (fs : FS) (parent : Nat) (name : String) (ok : Bool)
    (now : Nat) :
    fs.next_ino ≤ ((mkdirM fs parent name ok now).1).next_ino := by
  unfold mkdirM
  repeat' first
    | exact Nat.le_refl _
    | exact getOrCreate_next_le _ _ _
    | split
    | dsimp only

theorem readdirLoop_next_le (p : String) (cap : Nat) :
    ∀ es (fs : FS) (i : Int) (acc : List DirEnt),
      fs.next_ino ≤ ((readdirLoop p cap fs es i acc).1).next_ino := by
  intro es
  induction es with
  | nil => intro fs i acc; exact Nat.le_refl _
  | cons e rest ih =>
    intro fs i acc
    rw [readdirLoop]
    split
    · exact Nat.le_trans (getOrCreate_next_le _ _ _) (ih _ _ _)
    · exact getOrCreate_next_le _ _ _

theorem readdir_next_le (fs : FS) (ino : Nat) (offset : Int)
    (listing : Option (List FileEntry)) (cap : Nat) :
    fs.next_ino ≤ ((readdirM fs ino offset listing cap).1).next_ino := by
  unfold readdirM
  repeat' first
    | exact Nat.le_refl _
    | exact readdirLoop_next_le _ _ _ _ _ _
    | split
    | dsimp only

theorem step_next_le (fs : FS) (op : Op) : fs.next_ino ≤ (step fs op).next_ino := by
  cases op with
  | intern p e => exact getOrCreate_next_le _ _ _
  | ren parent name np nn ok => exact Nat.le_of_eq (rename_next _ _ _ _ _ _).symm
  | unl parent name ok => exact Nat.le_of_eq (unlink_next _ _ _ _).symm
  | rmd parent name ok => exact Nat.le_of_eq (unlink_next _ _ _ _).symm
  | wr ino off data fetch ok now => exact Nat.le_of_eq (write_next _ _ _ _ _ _ _).symm
  | mkd parent name ok now => exact mkdir_next_le _ _ _ _ _
  | rdd ino off listing cap => exact readdir_next_le _ _ _ _ _

theorem issuedRun_lb : ∀ (ops : List Op) (fs : FS), ∀ x ∈ issuedRun fs ops,
    fs.next_ino ≤ x := by
  intro ops
  induction ops with
  | nil => intro fs x hx; simp [issuedRun] at hx
  | cons op rest ih =>
    intro fs x hx
    simp only [issuedRun, List.mem_append] at hx
    rcases hx with hx | hx
    · exact (List.mem_range'_1.mp hx).1
    · exact Nat.le_trans (step_next_le fs op) (ih (step fs op) x hx)

theorem issuedRun_pairwise : ∀ (ops : List Op) (fs : FS),
    List.Pairwise (· < ·) (issuedRun fs ops) := by
  intro ops
  induction ops with
  | nil => intro fs; simp [issuedRun]
  | cons op rest ih =>
    intro fs
    simp only [issuedRun]
    rw [List.pairwise_append]
    refine ⟨List.pairwise_lt_range' _ _, ih _, ?_⟩
    intro a ha b hb
    have h1 := (List.mem_range'_1.mp ha).2
    have h2 := Nat.add_sub_cancel' (step_next_le fs op)
    have h3 := issuedRun_lb rest (step fs op) b hb
    omega

/-- C8: inode numbers issued by the registry along any trace of operations
starting from the freshly constructed registry are strictly increasing —
hence pairwise distinct, and a number freed by unlink/rmdir (which never
lowers the counter) is never issued again. -/
theorem C8_issued_strictly_increasing :
    ∀ (now : Nat) (ops : List Op),
      List.Pairwise (· < ·) (issuedRun (initFS now) ops) ∧
      List.Pairwise (· ≠ ·) (issuedRun (initFS now) ops) := by
  intro now ops
  refine ⟨issuedRun_pairwise ops _, (issuedRun_pairwise ops _).imp ?_⟩
  intro a b h
  exact Nat.ne_of_lt h

theorem getOrCreate_known (fs : FS) (p : String) (e : FileEntry) (ino : Nat)
    (h : alookup fs.path_to_ino p = some ino) :
    getOrCreateInode fs p e = (fs, ino) := by
  unfold getOrCreateInode
  rw [h]

theorem getOrCreate_new (fs : FS) (p : String) (e : FileEntry)
    (h : alookup fs.path_to_ino p = none) :
    getOrCreateInode fs p e =
      ({ inodes := ainsert fs.inodes fs.next_ino
            ⟨fs.next_ino, p, attrOfEntry fs.next_ino e⟩
         path_to_ino := ainsert fs.path_to_ino p fs.next_ino
         next_ino := fs.next_ino + 1 }, fs.next_ino) := by
  unfold getOrCreateInode
  rw [h]

theorem good_getOrCreate (fs : FS) (p : String) (e : FileEntry) (h : GoodFS fs) :
    GoodFS ((getOrCreateInode fs p e).1) := by
  obtain ⟨hA, hB⟩ := h
  cases hl : alookup fs.path_to_ino p with
  | some ino => rw [getOrCreate_known fs p e ino hl]; exact ⟨hA, hB⟩
  | none =>
    rw [getOrCreate_new fs p e hl]
    constructor
    · intro q j hq
      dsimp only at hq
      rw [alookup_ainsert] at hq
      by_cases hqp : q = p
      · rw [if_pos hqp] at hq
        injection hq with hj
        refine ⟨⟨fs.next_ino, p, attrOfEntry fs.next_ino e⟩, ?_, hqp.symm⟩
        dsimp only
        rw [alookup_ainsert, if_pos hj.symm]
      · rw [if_neg hqp] at hq
        obtain ⟨r, hr, hrp⟩ := hA q j hq
        have hjlt := hB j r hr
        refine ⟨r, ?_, hrp⟩
        dsimp only
        rw [alookup_ainsert, if_neg (by omega)]
        exact hr
    · intro j r hj
      dsimp only at hj ⊢
      rw [alookup_ainsert] at hj
      by_cases hje : j = fs.next_ino
      · omega
      · rw [if_neg hje] at hj
        have := hB j r hj
        omega

theorem good_unlink (fs : FS) (parent : Nat) (name : String) (ok : Bool)
    (h : GoodFS fs) : GoodFS ((unlinkM fs parent name ok).1) := by
  obtain ⟨hA, hB⟩ := h
  unfold unlinkM
  split
  · exact ⟨hA, hB⟩
  next path hpath =>
    split
    · split
      next ino hpi =>
        constructor
        · intro q j hq
          dsimp only at hq
          rw [alookup_aremove] at hq
          by_cases hqp : q = path
          · rw [if_pos hqp] at hq; exact absurd hq (by simp)
          · rw [if_neg hqp] at hq
            obtain ⟨r, hr, hrp⟩ := hA q j hq
            have hj : j ≠ ino := by
              intro he
              obtain ⟨r2, hr2, hr2p⟩ := hA path ino hpi
              rw [he] at hr
              rw [hr] at hr2
              injection hr2 with hrr
              exact hqp (by rw [← hrp, hrr, hr2p])
            refine ⟨r, ?_, hrp⟩
            dsimp only
            rw [alookup_aremove, if_neg hj]
            exact hr
        · intro j r hj
          dsimp only at hj ⊢
          rw [alookup_aremove] at hj
          by_cases hje : j = ino
          · rw [if_pos hje] at hj; exact absurd hj (by simp)
          · rw [if_neg hje] at hj; exact hB j r hj
      next hpi =>
        constructor
        · intro q j hq
          dsimp only at hq
          rw [alookup_aremove] at hq
          by_cases hqp : q = path
          · rw [if_pos hqp] at hq; exact absurd hq (by simp)
          · rw [if_neg hqp] at hq; exact hA q j hq
        · exact hB
    · exact ⟨hA, hB⟩

theorem good_rename (fs : FS) (parent : Nat) (name : String) (np : Nat)
    (nn : String) (ok : Bool) (h : GoodFS fs) :
    GoodFS ((renameM fs parent name np nn ok).1) := by
  obtain ⟨hA, hB⟩ := h
  unfold renameM
  split
  · exact ⟨hA, hB⟩
  next fromPath hfrom =>
    split
    · exact ⟨hA, hB⟩
    next toPath hto =>
      split
      · split
        next ino hpi =>
          obtain ⟨r0, hr0, hr0p⟩ := hA fromPath ino hpi
          dsimp only
          rw [hr0]
          dsimp only
          constructor
          · intro q j hq
            dsimp only at hq
            rw [alookup_ainsert] at hq
            by_cases hqt : q = toPath
            · rw [if_pos hqt] at hq
              injection hq with hj
              refine ⟨⟨r0.ino, toPath, r0.attr⟩, ?_, hqt.symm⟩
              dsimp only
              rw [alookup_ainsert, if_pos hj.symm]
            · rw [if_neg hqt] at hq
              rw [alookup_aremove] at hq
              by_cases hqf : q = fromPath
              · rw [if_pos hqf] at hq; exact absurd hq (by simp)
              · rw [if_neg hqf] at hq
                obtain ⟨r1, hr1, hr1p⟩ := hA q j hq
                have hj : j ≠ ino := by
                  intro he
                  rw [he, hr0] at hr1
                  injection hr1 with h1
                  exact hqf (by rw [← hr1p, ← h1, hr0p])
                refine ⟨r1, ?_, hr1p⟩
                dsimp only
                rw [alookup_ainsert, if_neg hj]
                exact hr1
          · intro j rr hj
            dsimp only at hj ⊢
            rw [alookup_ainsert] at hj
            by_cases hje : j = ino
            · have := hB ino r0 hr0
              omega
            · rw [if_neg hje] at hj
              exact hB j rr hj
        next hpi =>
          constructor
          · intro q j hq
            dsimp only at hq
            rw [alookup_aremove] at hq
            by_cases hqf : q = fromPath
            · rw [if_pos hqf] at hq; exact absurd hq (by simp)
            · rw [if_neg hqf] at hq; exact hA q j hq
          · exact hB
      · exact ⟨hA, hB⟩

theorem write_fs_cases (fs : FS) (ino : Nat) (offset : Int) (data : List Nat)
    (fetch : Option (List Nat)) (ok : Bool) (now : Nat) :
    (writeM fs ino offset data fetch ok now).fs = fs ∨
    ∃ r buf, alookup fs.inodes ino = some r ∧
      (writeM fs ino offset data fetch ok now).fs =
        { fs with inodes := (ainsert fs.inodes ino
            ⟨r.ino, r.path, { r.attr with size := buf, mtime := now }⟩) } := by
  unfold writeM
  split
  · exact Or.inl rfl
  · dsimp only
    repeat' split
    all_goals first
      | exact Or.inl rfl
      | (rename_i r hsome; exact Or.inr ⟨r, _, hsome, rfl⟩)

theorem good_replace_attr (fs : FS) (ino : Nat) (r : INode) (a : FileAttr)
    (hr : alookup fs.inodes ino = some r) (h : GoodFS fs) :
    GoodFS { fs with inodes := ainsert fs.inodes ino ⟨r.ino, r.path, a⟩ } := by
  obtain ⟨hA, hB⟩ := h
  constructor
  · intro q j hq
    dsimp only at hq
    obtain ⟨r1, hr1, hr1p⟩ := hA q j hq
    by_cases hje : j = ino
    · subst hje
      rw [hr] at hr1
      injection hr1 with h1
      refine ⟨⟨r.ino, r.path, a⟩, ?_, ?_⟩
      · dsimp only
        rw [alookup_ainsert, if_pos rfl]
      · dsimp only
        rw [h1]
        exact hr1p
    · refine ⟨r1, ?_, hr1p⟩
      dsimp only
      rw [alookup_ainsert, if_neg hje]
      exact hr1
  · intro j rr hj
    dsimp only at hj ⊢
    rw [alookup_ainsert] at hj
    by_cases hje : j = ino
    · have := hB ino r hr
      omega
    · rw [if_neg hje] at hj
      exact hB j rr hj

theorem good_write (fs : FS) (ino : Nat) (offset : Int) (data : List Nat)
    (fetch : Option (List Nat)) (ok : Bool) (now : Nat) (h : GoodFS fs) :
    GoodFS ((writeM fs ino offset data fetch ok now).fs) := by
  rcases write_fs_cases fs ino offset data fetch ok now with he | ⟨r, buf, hr, he⟩
  · rw [he]; exact h
  · rw [he]; exact good_replace_attr fs ino r _ hr h

theorem readdirLoop_pres (P : FS → Prop)
    (hP : ∀ fs path e, P fs → P ((getOrCreateInode fs path e).1))
    (p : String) (cap : Nat) :
    ∀ es (fs : FS) (i : Int) (acc : List DirEnt),
      P fs → P ((readdirLoop p cap fs es i acc).1) := by
  intro es
  induction es with
  | nil => intro fs i acc h; exact h
  | cons e rest ih =>
    intro fs i acc h
    rw [readdirLoop]
    split
    · exact ih _ _ _ (hP _ _ _ h)
    · exact hP _ _ _ h

theorem good_mkdir (fs : FS) (parent : Nat) (name : String) (ok : Bool)
    (now : Nat) (h : GoodFS fs) : GoodFS ((mkdirM fs parent name ok now).1) := by
  unfold mkdirM
  repeat' first
    | exact h
    | exact good_getOrCreate _ _ _ h
    | split
    | dsimp only

theorem good_readdir (fs : FS) (ino : Nat) (offset : Int)
    (listing : Option (List FileEntry)) (cap : Nat) (h : GoodFS fs) :
    GoodFS ((readdirM fs ino offset listing cap).1) := by
  unfold readdirM
  repeat' first
    | exact h
    | exact readdirLoop_pres GoodFS good_getOrCreate _ _ _ _ _ _ h
    | split
    | dsimp only

theorem good_step (fs : FS) (op : Op) (h : GoodFS fs) : GoodFS (step fs op) := by
  cases op with
  | intern p e => exact good_getOrCreate _ _ _ h
  | ren parent name np nn ok => exact good_rename _ _ _ _ _ _ h
  | unl parent name ok => exact good_unlink _ _ _ _ h
  | rmd parent name ok => exact good_unlink _ _ _ _ h
  | wr ino off data fetch ok now => exact good_write _ _ _ _ _ _ _ h
  | mkd parent name ok now => exact good_mkdir _ _ _ _ _ h
  | rdd ino off listing cap => exact good_readdir _ _ _ _ _ h

theorem good_run : ∀ (ops : List Op) (fs : FS), GoodFS fs → GoodFS (run fs ops) := by
  intro ops
  induction ops with
  | nil => intro fs h; exact h
  | cons op rest ih => intro fs h; exact ih _ (good_step _ _ h)

theorem good_init (now : Nat) : GoodFS (initFS now) := by
  constructor
  · intro p i hp
    by_cases hp' : p = "/"
    · subst hp'
      simp only [initFS, alookup, if_pos rfl] at hp
      injection hp with hi
      refine ⟨⟨1, "/", rootAttr now⟩, ?_, rfl⟩
      rw [← hi]
      simp [initFS, alookup]
    · simp [initFS, alookup, hp'] at hp
  · intro i r hi
    by_cases hi' : i = 1
    · subst hi'
      simp [initFS]
    · simp [initFS, alookup, hi'] at hi

/-- C1 counterexample: the ino-to-record direction (spec P1) is violated by
a rename whose destination path was already interned.  After interning "/a"
(inode 2) and "/b" (inode 3), a successful rename of "/a" onto "/b" leaves
inode 3 in the ino map with stored path "/b", yet "/b" now maps to inode 2,
so following inode 3's stored path does not lead back to inode 3. -/
theorem C1_rename_overwrite_breaks_ino_dir :
    ¬ InoDirInv (run (initFS 0)
      [Op.intern "/a" entryA, Op.intern "/b" entryB, Op.ren 1 "a" 1 "b" true]) := by
  intro h
  have h3 := h 3 ⟨3, "/b", attrOfEntry 3 entryB⟩ (by decide)
  revert h3
  decide

/-- C1 amended: in every state reachable by any sequence of
registry-mutating operations from the freshly constructed registry, the
path-to-ino direction is consistent (spec I1): every path mapping points at
a live record storing that same path.  The converse ino-to-record
round-trip (spec P1) fails after a rename whose destination path was
already mapped to a different inode, which keeps an orphaned record for the
overwritten inode. -/
theorem C1_path_dir_invariant (now : Nat) (ops : List Op) :
    PathDirInv (run (initFS now) ops) :=
  (good_run ops (initFS now) (good_init now)).1

theorem couple_getOrCreate (fs : FS) (p : String) (e : FileEntry)
    (h : CoupleInv fs) : CoupleInv ((getOrCreateInode fs p e).1) := by
  cases hl : alookup fs.path_to_ino p with
  | some ino => rw [getOrCreate_known fs p e ino hl]; exact h
  | none =>
    rw [getOrCreate_new fs p e hl]
    intro j r hj
    dsimp only at hj
    rw [alookup_ainsert] at hj
    by_cases hje : j = fs.next_ino
    · rw [if_pos hje] at hj
      injection hj with h1
      rw [← h1]
      exact ⟨rfl, rfl⟩
    · rw [if_neg hje] at hj
      exact h j r hj

theorem couple_unlink (fs : FS) (parent : Nat) (name : String) (ok : Bool)
    (h : CoupleInv fs) : CoupleInv ((unlinkM fs parent name ok).1) := by
  unfold unlinkM
  split
  · exact h
  next path hpath =>
    split
    · split
      next ino hpi =>
        intro j r hj
        dsimp only at hj
        rw [alookup_aremove] at hj
        by_cases hje : j = ino
        · rw [if_pos hje] at hj; exact absurd hj (by simp)
        · rw [if_neg hje] at hj; exact h j r hj
      next hpi =>
        intro j r hj
        dsimp only at hj
        exact h j r hj
    · exact h

theorem couple_rename (fs : FS) (parent : Nat) (name : String) (np : Nat)
    (nn : String) (ok : Bool) (h : CoupleInv fs) :
    CoupleInv ((renameM fs parent name np nn ok).1) := by
  unfold renameM
  split
  · exact h
  next fromPath hfrom =>
    split
    · exact h
    next toPath hto =>
      split
      · split
        next ino hpi =>
          intro j r hj
          dsimp only at hj
          cases hio : alookup fs.inodes ino with
          | some r0 =>
            rw [hio] at hj
            dsimp only at hj
            rw [alookup_ainsert] at hj
            by_cases hje : j = ino
            · rw [if_pos hje] at hj
              injection hj with h1
              rw [← h1]
              exact h ino r0 hio
            · rw [if_neg hje] at hj
              exact h j r hj
          | none =>
            rw [hio] at hj
            exact h j r hj
        next hpi =>
          intro j r hj
          dsimp only at hj
          exact h j r hj
      · exact h

theorem couple_mkdir (fs : FS) (parent : Nat) (name : String) (ok : Bool)
    (now : Nat) (h : CoupleInv fs) : CoupleInv ((mkdirM fs parent name ok now).1) := by
  unfold mkdirM
  repeat' first
    | exact h
    | exact couple_getOrCreate _ _ _ h
    | split
    | dsimp only

theorem couple_readdir (fs : FS) (ino : Nat) (offset : Int)
    (listing : Option (List FileEntry)) (cap : Nat) (h : CoupleInv fs) :
    CoupleInv ((readdirM fs ino offset listing cap).1) := by
  unfold readdirM
  repeat' first
    | exact h
    | exact readdirLoop_pres CoupleInv couple_getOrCreate _ _ _ _ _ _ h
    | split
    | dsimp only

theorem couple_step (fs : FS) (op : Op) (hw : op.isWr = false)
    (h : CoupleInv fs) : CoupleInv (step fs op) := by
  cases op with
  | intern p e => exact couple_getOrCreate _ _ _ h
  | ren parent name np nn ok => exact couple_rename _ _ _ _ _ _ h
  | unl parent name ok => exact couple_unlink _ _ _ _ h
  | rmd parent name ok => exact couple_unlink _ _ _ _ h
  | wr ino off data fetch ok now => exact absurd hw (by simp [Op.isWr])
  | mkd parent name ok now => exact couple_mkdir _ _ _ _ _ h
  | rdd ino off listing cap => exact couple_readdir _ _ _ _ _ h

theorem couple_run : ∀ (ops : List Op) (fs : FS), CoupleInv fs →
    (∀ op ∈ ops, op.isWr = false) → CoupleInv (run fs ops) := by
  intro ops
  induction ops with
  | nil => intro fs h _; exact h
  | cons op rest ih =>
    intro fs h hall
    exact ih _ (couple_step _ _ (hall op (by simp)) h)
      (fun o ho => hall o (by simp [ho]))

theorem couple_init (now : Nat) : CoupleInv (initFS now) := by
  intro i r hi
  by_cases hi' : i = 1
  · subst hi'
    simp only [initFS, alookup, if_pos rfl] at hi
    injection hi with h1
    rw [← h1]
    exact ⟨show (0 : Nat) = (0 + 511) / 512 by decide, rfl⟩
  · simp [initFS, alookup, hi'] at hi

/-- C9 counterexample: a successful write updates the cached size but not
the cached blocks, breaking blocks = ceil(size/512).  Intern "/a" as a
size-0 file (blocks 0), then write one byte successfully: the record of
inode 2 now has size 1 and blocks 0, but ceil(1/512) = 1. -/
theorem C9_write_breaks_blocks :
    ¬ CoupleInv (run (initFS 0) [Op.intern "/a" entryA, Op.wr 2 0 [7] none true 9]) := by
  intro h
  have h2 := h 2 ⟨2, "/a", { attrOfEntry 2 entryA with size := 1, mtime := 9 }⟩
    (by decide)
  revert h2
  decide

/-- C9 amended: blocks = ceil(size/512) and block_size = 512 hold for the
root record at construction and in every state reachable without write
operations (interning, mkdir, readdir, rename, unlink, rmdir all preserve
the coupling); a successful write updates the cached size but leaves blocks
unchanged, so the coupling can fail afterwards. -/
theorem C9_blocks_coupling_without_writes (now : Nat) (ops : List Op)
    (h : ∀ op ∈ ops, op.isWr = false) : CoupleInv (run (initFS now) ops) :=
  couple_run ops (initFS now) (couple_init now) h

/-- C9 witness: the amended statement at the one-intern trace. -/
theorem C9_blocks_coupling_witness :
    (∀ op ∈ [Op.intern "/a" entryA], op.isWr = false) ∧
    CoupleInv (run (initFS 0) [Op.intern "/a" entryA]) :=
  ⟨by decide, C9_blocks_coupling_without_writes 0 [Op.intern "/a" entryA] (by decide)⟩

theorem writeM_success_eq (fs : FS) (ino : Nat) (offset : Int) (data : List Nat)
    (fetch : Option (List Nat)) (now : Nat) (r : INode)
    (hr : lookupIno fs ino = some r) (h0 : 0 ≤ offset)
    (hb : offset.toNat + data.length ≤ isizeMax) :
    writeM fs ino offset data fetch true now =
      ⟨{ fs with inodes := (ainsert fs.inodes ino ⟨r.ino, r.path,
          { r.attr with
            size := (writeSpecBuffer (fetch.getD []) offset.toNat data).length,
            mtime := now }⟩) },
        WriteReply.written (data.length % 2 ^ 32),
        some (writeSpecBuffer (fetch.getD []) offset.toNat data)⟩ := by
  have h1 : (offset.toNat : Int) = offset := Int.toNat_of_nonneg h0
  have h2 : offset.toNat ≤ isizeMax := le_trans (Nat.le_add_right _ _) hb
  have hmax : isizeMax < 2 ^ 64 := by norm_num [isizeMax]
  have hoff_lt : offset < (2 ^ 64 : Int) := by
    calc offset = (offset.toNat : Int) := h1.symm
      _ ≤ (isizeMax : Int) := by exact_mod_cast h2
      _ < 2 ^ 64 := by exact_mod_cast hmax
  have hstart : usizeOfI64 offset = offset.toNat := usizeOfI64_nonneg offset h0 hoff_lt
  have hend_small : offset.toNat + data.length < 2 ^ 64 := by omega
  have hend : usize (offset.toNat + data.length) = offset.toNat + data.length :=
    usize_small _ hend_small
  have hr' : alookup fs.inodes ino = some r := hr
  unfold writeM
  rw [hr]
  dsimp only
  rw [hstart, hend]
  rw [if_neg (by
    intro hcon
    exact absurd hb (by omega))]
  by_cases hLe : (fetch.getD []).length < offset.toNat + data.length
  · rw [if_pos hLe]
    rw [if_neg (by
      simp only [List.length_append, List.length_replicate]
      omega)]
    rw [if_pos rfl]
    rw [hr']
    dsimp only
    have hbuf : (fetch.getD [] ++
          List.replicate (offset.toNat + data.length - (fetch.getD []).length) 0).take
            offset.toNat ++ data ++
        (fetch.getD [] ++
          List.replicate (offset.toNat + data.length - (fetch.getD []).length) 0).drop
            (offset.toNat + data.length) =
        writeSpecBuffer (fetch.getD []) offset.toNat data := by
      unfold writeSpecBuffer
      rw [max_eq_right (Nat.le_of_lt hLe)]
    rw [hbuf]
  · rw [if_neg hLe]
    rw [if_neg (by
      push_neg at hLe
      intro hcon
      rcases hcon with hcon | hcon <;> omega)]
    rw [if_pos rfl]
    rw [hr']
    dsimp only
    have hbuf : (fetch.getD []).take offset.toNat ++ data ++
        (fetch.getD []).drop (offset.toNat + data.length) =
        writeSpecBuffer (fetch.getD []) offset.toNat data := by
      unfold writeSpecBuffer
      rw [max_eq_left (Nat.not_lt.mp hLe)]
      simp
    rw [hbuf]

/-- C3: write read-modify-write postcondition.  For a write with
nonnegative offset on a known inode (with the physically-forced bounds that
offset + len(data) fits a Rust Vec and len(data) fits u32), the buffer sent
to the remote is exactly the previously fetched contents (empty when the
initial fetch failed) zero-extended to max(L, offset + len(data)) with data
overwritten at [offset, offset + len(data)); on remote success the reply
carries len(data) and the inode's cached size becomes the buffer length and
its mtime the current time. -/
theorem C3_write_postcondition (fs : FS) (ino : Nat) (offset : Int)
    (data : List Nat) (fetch : Option (List Nat)) (now : Nat)
    (hino : (lookupIno fs ino).isSome) (h0 : 0 ≤ offset)
    (hb : offset.toNat + data.length ≤ isizeMax) (hd : data.length < 2 ^ 32) :
    (writeM fs ino offset data fetch true now).sent =
      some (writeSpecBuffer (fetch.getD []) offset.toNat data) ∧
    (writeM fs ino offset data fetch true now).reply =
      WriteReply.written data.length ∧
    ∃ r', alookup (writeM fs ino offset data fetch true now).fs.inodes ino = some r' ∧
      r'.attr.size = (writeSpecBuffer (fetch.getD []) offset.toNat data).length ∧
      r'.attr.mtime = now := by
  obtain ⟨r, hr⟩ := Option.isSome_iff_exists.mp hino
  have hW := writeM_success_eq fs ino offset data fetch now r hr h0 hb
  rw [hW]
  refine ⟨rfl, ?_, ?_⟩
  · dsimp only
    rw [Nat.mod_eq_of_lt hd]
  · refine ⟨⟨r.ino, r.path,
      { r.attr with
        size := (writeSpecBuffer (fetch.getD []) offset.toNat data).length,
        mtime := now }⟩, ?_, rfl, rfl⟩
    dsimp only
    rw [alookup_ainsert, if_pos rfl]

/-- C3 witness: writing one byte at offset 0 over fetched contents [1,2,3]
on the root inode. -/
theorem C3_write_postcondition_witness :
    (writeM (initFS 0) 1 0 [7] (some [1, 2, 3]) true 5).sent =
      some (writeSpecBuffer [1, 2, 3] (0 : Int).toNat [7]) ∧
    (writeM (initFS 0) 1 0 [7] (some [1, 2, 3]) true 5).reply =
      WriteReply.written 1 ∧
    ∃ r', alookup (writeM (initFS 0) 1 0 [7] (some [1, 2, 3]) true 5).fs.inodes 1 =
        some r' ∧
      r'.attr.size = (writeSpecBuffer [1, 2, 3] (0 : Int).toNat [7]).length ∧
      r'.attr.mtime = 5 :=
  C3_write_postcondition (initFS 0) 1 0 [7] (some [1, 2, 3]) 5
    (by decide) (by decide) (by decide) (by decide)

theorem write_fail_atomic (fs : FS) (ino : Nat) (offset : Int) (data : List Nat)
    (fetch : Option (List Nat)) (now : Nat) (r : INode)
    (hr : lookupIno fs ino = some r)
    (hnc : (writeM fs ino offset data fetch false now).reply ≠ WriteReply.crash) :
    (writeM fs ino offset data fetch false now).fs = fs ∧
    (writeM fs ino offset data fetch false now).reply = WriteReply.err errnoEio := by
  by_cases hc1 : (fetch.getD []).length < usize (usizeOfI64 offset + data.length) ∧
      isizeMax < usize (usizeOfI64 offset + data.length)
  · exfalso
    apply hnc
    unfold writeM
    rw [hr]
    dsimp only
    rw [if_pos hc1]
  · by_cases hc2 : usize (usizeOfI64 offset + data.length) < usizeOfI64 offset ∨
        (if (fetch.getD []).length < usize (usizeOfI64 offset + data.length) then
          fetch.getD [] ++ List.replicate
            (usize (usizeOfI64 offset + data.length) - (fetch.getD []).length) 0
        else fetch.getD []).length < usize (usizeOfI64 offset + data.length)
    · exfalso
      apply hnc
      unfold writeM
      rw [hr]
      dsimp only
      rw [if_neg hc1, if_pos hc2]
    · constructor <;>
      · unfold writeM
        rw [hr]
        dsimp only
        rw [if_neg hc1, if_neg hc2, if_neg Bool.false_ne_true]

/-- C4: failed mutations are atomic with respect to the registry.  When the
remote call of write/mkdir/unlink/rmdir/rename fails (its path having been
composed, i.e. the call is actually made, and — for write — the callback
not having panicked first), the callback replies EIO and the registry (both
maps, cached attributes and the counter) is exactly the state before the
call; no error is converted into a success. -/
theorem C4_failed_mutations_atomic :
    (∀ (fs : FS) (ino : Nat) (offset : Int) (data : List Nat)
        (fetch : Option (List Nat)) (now : Nat) (r : INode),
      lookupIno fs ino = some r →
      (writeM fs ino offset data fetch false now).reply ≠ WriteReply.crash →
      (writeM fs ino offset data fetch false now).fs = fs ∧
      (writeM fs ino offset data fetch false now).reply = WriteReply.err errnoEio) ∧
    (∀ (fs : FS) (parent : Nat) (name : String) (now : Nat) (p : String),
      pathFromParent fs parent name = some p →
      mkdirM fs parent name false now = (fs, EntryReply.err errnoEio)) ∧
    (∀ (fs : FS) (parent : Nat) (name : String) (p : String),
      pathFromParent fs parent name = some p →
      unlinkM fs parent name false = (fs, EmptyReply.err errnoEio)) ∧
    (∀ (fs : FS) (parent : Nat) (name : String) (p : String),
      pathFromParent fs parent name = some p →
      rmdirM fs parent name false = (fs, EmptyReply.err errnoEio)) ∧
    (∀ (fs : FS) (parent : Nat) (name : String) (np : Nat) (nn : String)
        (fp tp : String),
      pathFromParent fs parent name = some fp →
      pathFromParent fs np nn = some tp →
      renameM fs parent name np nn false = (fs, EmptyReply.err errnoEio)) := by
  refine ⟨?_, ?_, ?_, ?_, ?_⟩
  · intro fs ino offset data fetch now r hr hnc
    exact write_fail_atomic fs ino offset data fetch now r hr hnc
  · intro fs parent name now p hp
    unfold mkdirM
    rw [hp]
    dsimp only
    rw [if_neg Bool.false_ne_true]
  · intro fs parent name p hp
    unfold unlinkM
    rw [hp]
    dsimp only
    rw [if_neg Bool.false_ne_true]
  · intro fs parent name p hp
    unfold rmdirM unlinkM
    rw [hp]
    dsimp only
    rw [if_neg Bool.false_ne_true]
  · intro fs parent name np nn fp tp hfp htp
    unfold renameM
    rw [hfp]
    dsimp only
    rw [htp]
    dsimp only
    rw [if_neg Bool.false_ne_true]

/-- C4 witness: a failing unlink and a failing write on concrete states
leave the registry untouched and reply EIO. -/
theorem C4_failed_mutations_witness :
    unlinkM (initFS 0) 1 "a" false = (initFS 0, EmptyReply.err errnoEio) ∧
    (writeM (initFS 0) 1 0 [1] none false 0).fs = initFS 0 ∧
    (writeM (initFS 0) 1 0 [1] none false 0).reply = WriteReply.err errnoEio :=
  ⟨C4_failed_mutations_atomic.2.2.1 (initFS 0) 1 "a" "/a" (by decide),
    C4_failed_mutations_atomic.1 (initFS 0) 1 0 [1] none 0 ⟨1, "/", rootAttr 0⟩
      (by decide) (by decide)⟩

/-- C7: read slice semantics.  On a known inode with a successful fetch of
bytes of length L (within Vec bounds, size being a u32), the reply is empty
when offset ≥ L and bytes[offset .. min(offset + size, L)] otherwise; a
failed fetch replies EIO; in every case the registry is unchanged. -/
theorem C7_read_slice (fs : FS) (ino : Nat) (offset : Int) (size : Nat)
    (r : INode) (hr : lookupIno fs ino = some r) (h0 : 0 ≤ offset)
    (hoff : offset < (2 : Int) ^ 63) (hsz : size < 2 ^ 32) :
    (∀ data : List Nat, data.length ≤ isizeMax →
      readM fs ino offset size (some data) =
        (fs, ReadReply.dataR (if data.length ≤ offset.toNat then []
          else (data.take (min (offset.toNat + size) data.length)).drop
            offset.toNat))) ∧
    readM fs ino offset size none = (fs, ReadReply.err errnoEio) := by
  have h63 : offset.toNat < 2 ^ 63 := by
    have h1 : (offset.toNat : Int) = offset := Int.toNat_of_nonneg h0
    have h2 : (offset.toNat : Int) < (2 : Int) ^ 63 := by rw [h1]; exact hoff
    exact_mod_cast h2
  have hoff_lt : offset < (2 ^ 64 : Int) := by
    calc offset < (2 : Int) ^ 63 := hoff
      _ < 2 ^ 64 := by norm_num
  have hstart : usizeOfI64 offset = offset.toNat := usizeOfI64_nonneg offset h0 hoff_lt
  constructor
  · intro data hlen
    have hes : usize (offset.toNat + size) = offset.toNat + size := by
      apply usize_small
      have : (2 : Nat) ^ 63 + 2 ^ 32 < 2 ^ 64 := by norm_num
      omega
    unfold readM
    rw [hr]
    dsimp only
    rw [hstart, hes]
    by_cases hse : data.length ≤ offset.toNat
    · rw [if_pos hse, if_pos hse]
    · rw [if_neg hse, if_neg hse]
      rw [if_neg (by omega)]
      congr 1
      congr 1
      rw [List.drop_take]
  · unfold readM
    rw [hr]

/-- C7 witness: reading 2 bytes at offset 1 of a 4-byte fetch returns the
middle slice; a failed fetch replies EIO. -/
theorem C7_read_slice_witness :
    readM (initFS 0) 1 1 2 (some [10, 11, 12, 13]) =
      (initFS 0, ReadReply.dataR [11, 12]) ∧
    readM (initFS 0) 1 1 2 none = (initFS 0, ReadReply.err errnoEio) :=
  ⟨(C7_read_slice (initFS 0) 1 1 2 ⟨1, "/", rootAttr 0⟩ (by decide) (by decide)
      (by decide) (by decide)).1 [10, 11, 12, 13] (by decide),
    (C7_read_slice (initFS 0) 1 1 2 ⟨1, "/", rootAttr 0⟩ (by decide) (by decide)
      (by decide) (by decide)).2⟩

theorem readdirLoop_emit (p : String) (cap : Nat) :
    ∀ (es : List FileEntry) (fs : FS) (i : Int) (acc : List DirEnt),
      ∃ t, (readdirLoop p cap fs es i acc).2 = acc ++ t ∧
        List.Chain' (fun a b : DirEnt => a.off < b.off) t ∧
        (∀ d ∈ t, i < d.off) ∧
        (∀ d ∈ t, ∃ e, e ∈ es ∧ d.name = e.name) := by
  intro es
  induction es with
  | nil =>
    intro fs i acc
    exact ⟨[], by simp [readdirLoop], List.chain'_nil, by simp, by simp⟩
  | cons e rest ih =>
    intro fs i acc
    rw [readdirLoop]
    split
    · obtain ⟨t, ht, hchain, hgt, hname⟩ :=
        ih (getOrCreateInode fs (joinPath p e.name) e).1 (i + 1)
          (acc ++ [⟨(getOrCreateInode fs (joinPath p e.name) e).2, i + 1,
            if e.is_dir then FileKind.directory else FileKind.regularFile, e.name⟩])
      refine ⟨⟨(getOrCreateInode fs (joinPath p e.name) e).2, i + 1,
          if e.is_dir then FileKind.directory else FileKind.regularFile, e.name⟩ :: t,
        ?_, ?_, ?_, ?_⟩
      · rw [ht, List.append_assoc]
        rfl
      · rw [List.chain'_cons']
        refine ⟨?_, hchain⟩
        intro b hb
        exact hgt b (List.mem_of_mem_head? hb)
      · intro d hd
        rcases List.mem_cons.mp hd with h | h
        · subst h
          dsimp only
          omega
        · have := hgt d h
          omega
      · intro d hd
        rcases List.mem_cons.mp hd with h | h
        · subst h
          exact ⟨e, by simp, rfl⟩
        · obtain ⟨e', he', hn⟩ := hname d h
          exact ⟨e', by simp [he'], hn⟩
    · exact ⟨[], by simp, List.chain'_nil, by simp, by simp⟩

theorem readdir_emit_block (p : String) (cap : Nat) (fs : FS)
    (es : List FileEntry) (i : Int) (acc : List DirEnt)
    (hacc : List.Chain' (fun a b : DirEnt => a.off < b.off) acc)
    (hlast : ∀ d ∈ acc, d.off ≤ i) :
    List.Chain' (fun a b : DirEnt => a.off < b.off)
      ((readdirLoop p cap fs es i acc).2) ∧
    ∃ t, (readdirLoop p cap fs es i acc).2 = acc ++ t ∧
      (∀ d ∈ t, ∃ e, e ∈ es ∧ d.name = e.name) := by
  obtain ⟨t, ht, hchain, hgt, hname⟩ := readdirLoop_emit p cap es fs i acc
  refine ⟨?_, t, ht, hname⟩
  rw [ht, List.chain'_append]
  refine ⟨hacc, hchain, ?_⟩
  intro x hx y hy
  have h1 := hlast x (List.mem_of_mem_getLast? hx)
  have h2 := hgt y (List.mem_of_mem_head? hy)
  omega

theorem readdir_emitted_props (fs : FS) (ino : Nat) (offset : Int)
    (listing : Option (List FileEntry)) (cap : Nat) :
    List.Chain' (fun a b : DirEnt => a.off < b.off)
      (readdirEmitted fs ino offset listing cap) ∧
    ∃ pre post, readdirEmitted fs ino offset listing cap = pre ++ post ∧
      (∀ d ∈ pre, d.name = "." ∨ d.name = "..") ∧
      (∀ d ∈ post, ∃ e, e ∈ listing.getD [] ∧ d.name = e.name) := by
  cases hlook : lookupIno fs ino with
  | none =>
    have h : readdirEmitted fs ino offset listing cap = [] := by
      unfold readdirEmitted readdirM
      rw [hlook]
    rw [h]
    exact ⟨List.chain'_nil, [], [], rfl, by simp, by simp⟩
  | some inode =>
    cases listing with
    | none =>
      have h : readdirEmitted fs ino offset none cap = [] := by
        unfold readdirEmitted readdirM
        rw [hlook]
      rw [h]
      exact ⟨List.chain'_nil, [], [], rfl, by simp, by simp⟩
    | some entries =>
      by_cases h0 : offset = 0
      · subst h0
        rcases Nat.lt_or_ge cap 2 with hcap | hcap
        · have hcap' : cap = 0 ∨ cap = 1 := by omega
          rcases hcap' with hc | hc <;> subst hc
          · have h : readdirEmitted fs ino 0 (some entries) 0 = [] := by
              unfold readdirEmitted readdirM
              rw [hlook]
              simp
            rw [h]
            exact ⟨List.chain'_nil, [], [], rfl, by simp, by simp⟩
          · have h : readdirEmitted fs ino 0 (some entries) 1 =
                [⟨ino, 1, FileKind.directory, "."⟩] := by
              unfold readdirEmitted readdirM
              rw [hlook]
              simp
            rw [h]
            refine ⟨List.chain'_singleton _,
              [⟨ino, 1, FileKind.directory, "."⟩], [], rfl, ?_, by simp⟩
            intro d hd
            simp only [List.mem_singleton] at hd
            subst hd
            exact Or.inl rfl
        · have hc0 : ¬ (cap = 0) := by omega
          have hc1 : ¬ (cap ≤ 1) := by omega
          have h : readdirEmitted fs ino 0 (some entries) cap =
              (readdirLoop inode.path cap fs entries 2
                [⟨ino, 1, FileKind.directory, "."⟩,
                  ⟨ino, 2, FileKind.directory, ".."⟩]).2 := by
            unfold readdirEmitted readdirM
            rw [hlook]
            simp [hc0, hc1]
          rw [h]
          obtain ⟨hchain, t, ht, hname⟩ := readdir_emit_block inode.path cap fs
            entries 2
            [⟨ino, 1, FileKind.directory, "."⟩, ⟨ino, 2, FileKind.directory, ".."⟩]
            (by simp [List.chain'_cons, List.chain'_singleton])
            (by
              intro d hd
              rcases List.mem_cons.mp hd with hh | hh
              · subst hh; simp
              · simp only [List.mem_singleton] at hh
                subst hh; simp)
          refine ⟨hchain,
            [⟨ino, 1, FileKind.directory, "."⟩, ⟨ino, 2, FileKind.directory, ".."⟩],
            t, ht, ?_, hname⟩
          intro d hd
          rcases List.mem_cons.mp hd with hh | hh
          · subst hh; exact Or.inl rfl
          · simp only [List.mem_singleton] at hh
            subst hh; exact Or.inr rfl
      · by_cases h1 : offset = 1
        · subst h1
          rcases Nat.eq_zero_or_pos cap with hc | hc
          · subst hc
            have h : readdirEmitted fs ino 1 (some entries) 0 = [] := by
              unfold readdirEmitted readdirM
              rw [hlook]
              simp
            rw [h]
            exact ⟨List.chain'_nil, [], [], rfl, by simp, by simp⟩
          · have hc1 : ¬ (cap ≤ 0) := by omega
            have h : readdirEmitted fs ino 1 (some entries) cap =
                (readdirLoop inode.path cap fs entries 2
                  [⟨ino, 2, FileKind.directory, ".."⟩]).2 := by
              unfold readdirEmitted readdirM
              rw [hlook]
              simp [hc1]
            rw [h]
            obtain ⟨hchain, t, ht, hname⟩ := readdir_emit_block inode.path cap fs
              entries 2 [⟨ino, 2, FileKind.directory, ".."⟩]
              (List.chain'_singleton _)
              (by
                intro d hd
                simp only [List.mem_singleton] at hd
                subst hd; simp)
            refine ⟨hchain, [⟨ino, 2, FileKind.directory, ".."⟩], t, ht, ?_, hname⟩
            intro d hd
            simp only [List.mem_singleton] at hd
            subst hd
            exact Or.inr rfl
        · have h : readdirEmitted fs ino offset (some entries) cap =
              (readdirLoop inode.path cap fs
                (entries.drop (max (offset - 2) 0).toNat) offset []).2 := by
            unfold readdirEmitted readdirM
            rw [hlook]
            simp [h0, h1]
          rw [h]
          obtain ⟨hchain, t, ht, hname⟩ := readdir_emit_block inode.path cap fs
            (entries.drop (max (offset - 2) 0).toNat) offset [] List.chain'_nil
            (by intro d hd; simp at hd)
          refine ⟨hchain, [], t, ht, by simp, ?_⟩
          intro d hd
          obtain ⟨e, he, hn⟩ := hname d hd
          exact ⟨e, List.mem_of_mem_drop he, hn⟩

/-- C6: readdir emission order and cursor monotonicity.  For every readdir
call, the emitted sequence carries strictly increasing resumption offsets
(hence no offset is emitted twice), and decomposes as a prefix of synthetic
"." / ".." entries followed by entries named from the remote listing.
Concretely, offset 0 on a directory listing entries x then y emits
(., 1), (.., 2), (x, 3), (y, 4) in that order. -/
theorem C6_readdir_order :
    (∀ (fs : FS) (ino : Nat) (offset : Int) (listing : Option (List FileEntry))
        (cap : Nat),
      List.Chain' (· < ·)
        ((readdirEmitted fs ino offset listing cap).map DirEnt.off) ∧
      List.Pairwise (· ≠ ·)
        ((readdirEmitted fs ino offset listing cap).map DirEnt.off) ∧
      ∃ pre post, readdirEmitted fs ino offset listing cap = pre ++ post ∧
        (∀ d ∈ pre, d.name = "." ∨ d.name = "..") ∧
        (∀ d ∈ post, ∃ e, e ∈ listing.getD [] ∧ d.name = e.name)) ∧
    (readdirM (initFS 0) 1 0 (some [entryX, entryY]) 100).2 = DirReply.ok
      [⟨1, 1, FileKind.directory, "."⟩, ⟨1, 2, FileKind.directory, ".."⟩,
        ⟨2, 3, FileKind.regularFile, "x"⟩, ⟨3, 4, FileKind.regularFile, "y"⟩] := by
  constructor
  · intro fs ino offset listing cap
    obtain ⟨hchain, pre, post, hsplit, hpre, hpost⟩ :=
      readdir_emitted_props fs ino offset listing cap
    have hmap : List.Chain' (· < ·)
        ((readdirEmitted fs ino offset listing cap).map DirEnt.off) :=
      (List.chain'_map DirEnt.off).mpr hchain
    refine ⟨hmap, ?_, pre, post, hsplit, hpre, hpost⟩
    exact (List.chain'_iff_pairwise.mp hmap).imp (fun h => ne_of_lt h)
  · decide

/-- C6 witness: the general statement applied at the concrete two-entry
listing of the scenario. -/
theorem C6_readdir_order_witness :
    List.Chain' (· < ·)
      ((readdirEmitted (initFS 0) 1 0 (some [entryX, entryY]) 100).map DirEnt.off) ∧
    List.Pairwise (· ≠ ·)
      ((readdirEmitted (initFS 0) 1 0 (some [entryX, entryY]) 100).map DirEnt.off) ∧
    ∃ pre post,
      readdirEmitted (initFS 0) 1 0 (some [entryX, entryY]) 100 = pre ++ post ∧
      (∀ d ∈ pre, d.name = "." ∨ d.name = "..") ∧
      (∀ d ∈ post, ∃ e, e ∈ (some [entryX, entryY]).getD [] ∧ d.name = e.name) :=
  C6_readdir_order.1 (initFS 0) 1 0 (some [entryX, entryY]) 100
